import Mathlib

/-!
Verification of the streaming IoU metric engine and its surrounding glue
from the `pytorch-lightning-segmentation-template` repository.

The metric engine (`ConfusionMatrixState` with `update` / `merge` /
`compute` / `reset`) is specified in `spec.md` but its implementation file
(`seg_lapa/metrics.py`) is not among the available sources; the definitions
below for the engine are therefore modelled from the spec, following its
words exactly.  The definitions for `train.py` (per-phase accumulators,
`is_rank_zero`, `create_log_dir`) and `config_parse/dataset_conf.py`
(`validate_dataconf`) are translated directly from the Python sources.
-/

namespace SegLapa

/-- Modelled from the spec: the cell counts of a confusion matrix
(`seg_lapa/metrics.py` is missing from the sources).  The spec's `counts` is
a `num_classes × num_classes` grid with `counts[t][p]` the number of pixels
of true label `t` predicted as `p`; we model it as a total function on
integer label pairs so the update effect, which is keyed on raw integer
labels, can be stated exactly as written. -/
abbrev Counts := Int → Int → Nat

/-- Modelled from the spec: `ConfusionMatrixState` owns the running counts
and a `num_classes` fixed at construction. -/
structure ConfusionMatrixState where
  num_classes : Nat
  counts : Counts

/-- The all-zero count table. -/
def zeroCounts : Counts := fun _ _ => 0

/-- Modelled from the spec: construction fails with `ConfigurationError`
when `num_classes ≤ 0`. -/
inductive ConfigurationError
  | nonPositiveNumClasses
deriving DecidableEq

/-- Modelled from the spec: `new(num_classes)` constructs a zero matrix,
failing with `ConfigurationError` if `num_classes ≤ 0`. -/
def newState (n : Nat) : Except ConfigurationError ConfusionMatrixState :=
  if 0 < n then .ok ⟨n, zeroCounts⟩ else .error .nonPositiveNumClasses

/-- Modelled from the spec: `reset()` zeroes all entries. -/
def reset (s : ConfusionMatrixState) : ConfusionMatrixState :=
  ⟨s.num_classes, zeroCounts⟩

/-- Modelled from the spec: `merge` fails with `CollectiveMismatch` when the
operands disagree on `num_classes`. -/
inductive MergeError
  | collectiveMismatch
deriving DecidableEq

/-- Modelled from the spec: `merge(other)` is entrywise addition, requiring
equal `num_classes` and failing with `CollectiveMismatch` otherwise. -/
def merge (a b : ConfusionMatrixState) : Except MergeError ConfusionMatrixState :=
  if a.num_classes = b.num_classes then
    .ok ⟨a.num_classes, fun t p => a.counts t p + b.counts t p⟩
  else .error .collectiveMismatch

/-- Modelled from the spec: the error taxonomy of `update`. -/
inductive UpdateError
  | lengthMismatch
  | outOfRangeLabel
deriving DecidableEq

/-- Modelled from the spec: a label passes validation when it equals the
`ignore_index` sentinel or lies in `[0, num_classes)`. -/
def labelValid (n : Nat) (ignore_index : Option Int) (x : Int) : Bool :=
  some x == ignore_index || (0 ≤ x && x < (n : Int))

/-- Increment a single cell of the count table. -/
def bump (f : Counts) (t p : Int) : Counts :=
  fun a b => if a = t ∧ b = p then f a b + 1 else f a b

/-- Modelled from the spec: fold a list of `(target, prediction)` pairs into
the count table, incrementing `counts[t][p]` for every pair whose target is
not the `ignore_index` sentinel and skipping ignored pairs entirely. -/
def foldPairs (f : Counts) (ignore_index : Option Int) : List (Int × Int) → Counts
  | [] => f
  | (t, p) :: rest =>
      foldPairs (if some t == ignore_index then f else bump f t p) ignore_index rest

/-- Modelled from the spec: `update(state, predictions, targets, ignore_index)`
validates first — `LengthMismatch` when the sequences differ in length,
`OutOfRangeLabel` when some non-ignored label falls outside
`[0, num_classes)` — and only then commits the increments, so a failed call
never mutates the matrix. -/
def update (s : ConfusionMatrixState) (predictions targets : List Int)
    (ignore_index : Option Int) : Except UpdateError ConfusionMatrixState :=
  if predictions.length ≠ targets.length then .error .lengthMismatch
  else if predictions.all (labelValid s.num_classes ignore_index) &&
          targets.all (labelValid s.num_classes ignore_index) then
    .ok ⟨s.num_classes, foldPairs s.counts ignore_index (targets.zip predictions)⟩
  else .error .outOfRangeLabel

/-- The matrix visible to the caller after an `update` call: the new state on
success, the untouched old state on failure. -/
def applyUpdate (s : ConfusionMatrixState) (predictions targets : List Int)
    (ignore_index : Option Int) : ConfusionMatrixState :=
  match update s predictions targets ignore_index with
  | .ok s2 => s2
  | .error _ => s

/-- Run a sequence of `update` calls, stopping at the first failure.  Each
list element is a `(predictions, targets)` batch. -/
def runUpdates (s : ConfusionMatrixState) (batches : List (List Int × List Int))
    (ignore_index : Option Int) : Except UpdateError ConfusionMatrixState :=
  match batches with
  | [] => .ok s
  | (ps, ts) :: rest =>
      match update s ps ts ignore_index with
      | .ok s2 => runUpdates s2 rest ignore_index
      | .error e => .error e

/-- Modelled from the spec: `TP = counts[c][c]`. -/
def truePos (s : ConfusionMatrixState) (c : Nat) : Nat := s.counts c c

/-- Modelled from the spec: the sum of column `c` (`TP + FP`). -/
def colSum (s : ConfusionMatrixState) (c : Nat) : Nat :=
  ∑ t in Finset.range s.num_classes, s.counts t c

/-- Modelled from the spec: the sum of row `c` (`TP + FN`). -/
def rowSum (s : ConfusionMatrixState) (c : Nat) : Nat :=
  ∑ p in Finset.range s.num_classes, s.counts c p

/-- Modelled from the spec: `denom = TP + FP + FN` with
`FP = colSum - TP` and `FN = rowSum - TP`. -/
def denom (s : ConfusionMatrixState) (c : Nat) : Nat :=
  truePos s c + (colSum s c - truePos s c) + (rowSum s c - truePos s c)

/-- Modelled from the spec: `IoU_c = TP / denom` when `denom > 0`, else the
undefined marker (`none`).  Exact division is modelled in `ℚ`; the spec
performs it in floating point only at this final step, with all accumulation
exact, so the defined/undefined structure and the quotient are faithful. -/
def iouAt (s : ConfusionMatrixState) (c : Nat) : Option ℚ :=
  if 0 < denom s c then some ((truePos s c : ℚ) / (denom s c : ℚ)) else none

/-- Modelled from the spec: `IoUResult` — ordered per-class entries, each a
value or the undefined marker, plus the mean of the defined entries.  The
mean field is named `miou` as in `train.py` (`metrics_avg.miou`). -/
structure IoUResult where
  per_class_iou : List (Option ℚ)
  miou : Option ℚ

/-- Modelled from the spec: `compute()` derives per-class IoU for classes
`0, …, num_classes - 1` and the unweighted arithmetic mean of the defined
entries; when no entry is defined the mean is the undefined marker. -/
def compute (s : ConfusionMatrixState) : IoUResult :=
  let pcs := (List.range s.num_classes).map (iouAt s)
  let defined := pcs.filterMap id
  ⟨pcs, if defined.isEmpty then none else some (defined.sum / (defined.length : ℚ))⟩

/-- The classes whose IoU is defined (positive union). -/
def definedIdx (s : ConfusionMatrixState) : List Nat :=
  (List.range s.num_classes).filter (fun c => 0 < denom s c)

/-- The list of defined per-class IoU values, in class order. -/
def definedVals (s : ConfusionMatrixState) : List ℚ :=
  (definedIdx s).map (fun c => (truePos s c : ℚ) / (denom s c : ℚ))

/-- The sum of a count table over the `num_classes × num_classes` grid. -/
def gridTotal (n : Nat) (f : Counts) : Nat :=
  ∑ t in Finset.range n, ∑ p in Finset.range n, f t p

/-- The sum of all `num_classes × num_classes` entries of the matrix. -/
def totalCount (s : ConfusionMatrixState) : Nat :=
  gridTotal s.num_classes s.counts

/-- The number of entries of `targets` different from the `ignore_index`
sentinel. -/
def nonIgnoredCount (targets : List Int) (ignore_index : Option Int) : Nat :=
  targets.countP (fun t => !(some t == ignore_index))

/-- The total number of non-ignored targets across a list of
`(predictions, targets)` batches. -/
def sumNonIgnored (batches : List (List Int × List Int))
    (ignore_index : Option Int) : Nat :=
  (batches.map (fun b => nonIgnoredCount b.2 ignore_index)).sum

/-- Every prediction paired with a non-ignored target lies inside the grid.
A prediction equal to `ignore_index` passes the spec's validation even when
it is outside `[0, num_classes)`, so this is a genuine extra condition. -/
def gridSafe (n : Nat) (ignore_index : Option Int)
    (predictions targets : List Int) : Prop :=
  ∀ q ∈ targets.zip predictions, some q.1 = ignore_index ∨ (0 ≤ q.2 ∧ q.2 < (n : Int))

instance gridSafeDecidable (n : Nat) (ig : Option Int) (ps ts : List Int) :
    Decidable (gridSafe n ig ps ts) :=
  inferInstanceAs (Decidable (∀ q ∈ ts.zip ps,
    some q.1 = ig ∨ (0 ≤ q.2 ∧ q.2 < (n : Int))))

/-! ### The per-phase accumulators of `DeeplabV3plus` (`train.py`)

`DeeplabV3plus.__init__` constructs three independent `Iou` accumulators,
`self.iou_train`, `self.iou_val` and `self.iou_test`; each `*_step` method
folds its batch into exactly one of them, and each `*_epoch_end` method
computes and resets exactly one of them.  The `Iou` object itself lives in
the missing `seg_lapa/metrics.py`, so its behaviour is the spec-modelled
`update` above; the field layout and which field each method touches are
read off `train.py` directly. -/

/-- The metric-carrying state of the `DeeplabV3plus` Lightning module:
one accumulator per phase (`train.py`, `__init__`). -/
structure SegModule where
  iou_train : ConfusionMatrixState
  iou_val : ConfusionMatrixState
  iou_test : ConfusionMatrixState

/-- Source `DeeplabV3plus.__init__`: all three accumulators are freshly constructed
with the same `num_classes = config.model.num_classes`. -/
def initModule (n : Nat) : SegModule :=
  ⟨⟨n, zeroCounts⟩, ⟨n, zeroCounts⟩, ⟨n, zeroCounts⟩⟩

/-- Modelled from the spec: the `Iou.__call__` update of one accumulator
(`seg_lapa/metrics.py` is missing); its `ignore_index` is kept as an
explicit parameter. -/
def iouForward (s : ConfusionMatrixState) (predictions labels : List Int)
    (ignore_index : Option Int) : ConfusionMatrixState :=
  applyUpdate s predictions labels ignore_index

/-- Source `DeeplabV3plus.training_step`: `self.iou_train(predictions, labels)`. -/
def training_step (m : SegModule) (predictions labels : List Int)
    (ignore_index : Option Int) : SegModule :=
  { m with iou_train := iouForward m.iou_train predictions labels ignore_index }

/-- Source `DeeplabV3plus.validation_step`: `self.iou_val(predictions, labels)`. -/
def validation_step (m : SegModule) (predictions labels : List Int)
    (ignore_index : Option Int) : SegModule :=
  { m with iou_val := iouForward m.iou_val predictions labels ignore_index }

/-- Source `DeeplabV3plus.test_step`: `self.iou_test(predictions, labels)`. -/
def test_step (m : SegModule) (predictions labels : List Int)
    (ignore_index : Option Int) : SegModule :=
  { m with iou_test := iouForward m.iou_test predictions labels ignore_index }

/-- Source `DeeplabV3plus.training_epoch_end`: computes `self.iou_train`, logs the
`miou`, and resets only `self.iou_train`. -/
def training_epoch_end (m : SegModule) : Option ℚ × SegModule :=
  ((compute m.iou_train).miou, { m with iou_train := reset m.iou_train })

/-- Source `DeeplabV3plus.validation_epoch_end`: computes and resets `self.iou_val`. -/
def validation_epoch_end (m : SegModule) : Option ℚ × SegModule :=
  ((compute m.iou_val).miou, { m with iou_val := reset m.iou_val })

/-- Source `DeeplabV3plus.test_epoch_end`: computes and resets `self.iou_test`. -/
def test_epoch_end (m : SegModule) : Option ℚ × SegModule :=
  ((compute m.iou_test).miou, { m with iou_test := reset m.iou_test })

/-! ### `config_parse/dataset_conf.py` -/

/-- The dataset node of the hydra config (`cfg_dataset`): a `name` plus the
keyword fields `LapaConf` expects; `none` models an absent key. -/
structure DatasetCfg where
  name : String
  data_dir : Option String
  batch_size : Option Int
  num_workers : Option Int
  resize_h : Option Int
  resize_w : Option Int

/-- Source `LapaConf`: the pydantic dataclass with all fields required. -/
structure LapaConf where
  name : String
  data_dir : String
  batch_size : Int
  num_workers : Int
  resize_h : Int
  resize_w : Int

/-- The failures `validate_dataconf` can surface: the `ValueError` it raises
itself on an unknown dataset name, or the constructor-level error (missing
keyword argument) that propagates uncaught. -/
inductive ConfError
  | valueError (msg : String)
  | validationError
deriving DecidableEq

/-- Source `LapaConf(**cfg_dataset)`: constructing the dataclass from the config
node needs every required keyword present. -/
def mkLapaConf (cfg : DatasetCfg) : Except ConfError LapaConf :=
  match cfg.data_dir, cfg.batch_size, cfg.num_workers, cfg.resize_h, cfg.resize_w with
  | some d, some b, some w, some h, some rw2 => .ok ⟨cfg.name, d, b, w, h, rw2⟩
  | _, _, _, _, _ => .error .validationError

/-- Source `valid_options`: the dispatch table from dataset name to dataclass
constructor; its only key is `"lapa"`. -/
def valid_options : List (String × (DatasetCfg → Except ConfError LapaConf)) :=
  [("lapa", mkLapaConf)]

/-- The `ValueError` message of `validate_dataconf` (quoting punctuation
aside): it names the offending dataset and lists the valid options. -/
def invalidDatasetMsg (name : String) : String :=
  "Invalid Config: " ++ name ++ " is not a valid dataset. Valid Options: [" ++
    String.intercalate ", " (valid_options.map (fun kv => kv.1)) ++ "]"

/-- Source `validate_dataconf(cfg_dataset)`: looks `cfg_dataset.name` up in
`valid_options`; a failed lookup (`KeyError`) is turned into a `ValueError`
listing the valid options, otherwise the dataclass constructor runs on the
config node. -/
def validate_dataconf (cfg : DatasetCfg) : Except ConfError LapaConf :=
  match valid_options.lookup cfg.name with
  | some ctor => ctor cfg
  | none => .error (.valueError (invalidDatasetMsg cfg.name))

/-! ### `create_log_dir` and `is_rank_zero` (`train.py`) -/

/-- The two rank environment variables, parsed as integers; `none` models an
unset variable (`os.environ.get` falls back to `0`). -/
structure EnvRanks where
  local_rank : Option Int
  node_rank : Option Int

/-- Source `is_rank_zero()`: true exactly when both `LOCAL_RANK` and `NODE_RANK`
are `0` or unset. -/
def is_rank_zero (env : EnvRanks) : Bool :=
  if env.local_rank.getD 0 = 0 ∧ env.node_rank.getD 0 = 0 then true else false

/-- The filesystem side effects `create_log_dir` can perform; paths are
segment lists rooted at the project root. -/
inductive FsAction
  | mkdirParents (path : List String)
  | saveConfig (path : List String)
deriving DecidableEq

/-- Source constant `LOGS_DIR = "logs"`. -/
def LOGS_DIR : String := "logs"

/-- Source `create_log_dir(cfg, run_id)`: on a rank-zero process it creates
`logs/<run_id>`, saves the config there as `train.yaml`, and returns that
path; on any other process it performs no filesystem action and returns
`logs/None`.  The returned pair is (actions performed, returned path). -/
def create_log_dir (env : EnvRanks) (project_root : List String)
    (run_id : String) : List FsAction × List String :=
  let log_root_dir := project_root ++ [LOGS_DIR]
  if is_rank_zero env then
    let log_dir := log_root_dir ++ [run_id]
    ([.mkdirParents log_dir, .saveConfig (log_dir ++ ["train.yaml"])], log_dir)
  else
    ([], log_root_dir ++ ["None"])

/-! ### Concrete instances used by the closed witness statements -/

/-- A small two-class state: three true positives for class 0 and one
class-0 pixel predicted as class 1. -/
def cmA : ConfusionMatrixState :=
  ⟨2, fun t p => if t = 0 ∧ p = 0 then 3 else if t = 0 ∧ p = 1 then 1 else 0⟩

/-- A second two-class state. -/
def cmB : ConfusionMatrixState :=
  ⟨2, fun t p => if t = 1 ∧ p = 1 then 2 else 0⟩

/-- A third two-class state. -/
def cmC : ConfusionMatrixState :=
  ⟨2, fun t p => if t = 1 ∧ p = 0 then 5 else 0⟩

/-- A one-class state with zero counts. -/
def cmOne : ConfusionMatrixState := ⟨1, zeroCounts⟩

/-- A rank-zero environment (both variables unset or zero). -/
def envZero : EnvRanks := ⟨none, some 0⟩

/-- A non-rank-zero environment. -/
def envOne : EnvRanks := ⟨some 1, none⟩

/-- A dataset config node with an unknown name. -/
def cfgBad : DatasetCfg := ⟨"coco", some "/data", some 8, some 4, some 256, some 256⟩

/-- A complete `lapa` dataset config node. -/
def cfgLapa : DatasetCfg := ⟨"lapa", some "/data", some 8, some 4, some 256, some 256⟩

/-! ### Helper lemmas -/

/-- An indicator sum over the grid range, with the index cast to `ℤ`. -/
theorem sum_range_indicator (n : Nat) (t : Int) (x : Nat) :
    (∑ a in Finset.range n, if (a : Int) = t then x else 0) =
      if 0 ≤ t ∧ t < (n : Int) then x else 0 := by
  by_cases h : 0 ≤ t ∧ t < (n : Int)
  · have ht : t.toNat ∈ Finset.range n := by
      simp only [Finset.mem_range]
      omega
    have hcong : ∀ a ∈ Finset.range n,
        (if (a : Int) = t then x else 0) = (if a = t.toNat then x else 0) := by
      intro a _
      have hiff : ((a : Int) = t) ↔ (a = t.toNat) := by omega
      rw [if_congr hiff rfl rfl]
    rw [Finset.sum_congr rfl hcong, if_pos h]
    exact (Finset.sum_ite_eq' (Finset.range n) t.toNat (fun _ => x)).trans (if_pos ht)
  · rw [if_neg h]
    apply Finset.sum_eq_zero
    intro a ha
    rw [if_neg]
    intro he
    simp only [Finset.mem_range] at ha
    omega

/-- Incrementing one cell raises the grid total by one exactly when the cell
lies inside the grid. -/
theorem gridTotal_bump (n : Nat) (f : Counts) (t p : Int) :
    gridTotal n (bump f t p) =
      gridTotal n f +
        if (0 ≤ t ∧ t < (n : Int)) ∧ (0 ≤ p ∧ p < (n : Int)) then 1 else 0 := by
  have hpt : ∀ a b : Int, bump f t p a b =
      f a b + if (a = t) ∧ (b = p) then 1 else 0 := by
    intro a b
    by_cases h : a = t ∧ b = p <;> simp [bump, h]
  unfold gridTotal
  have hrow : ∀ a : Nat,
      (∑ b in Finset.range n, bump f t p a b) =
        (∑ b in Finset.range n, f a b) +
          (if (a : Int) = t then (if 0 ≤ p ∧ p < (n : Int) then 1 else 0) else 0) := by
    intro a
    have h1 : (∑ b in Finset.range n, bump f t p a b) =
        ∑ b in Finset.range n,
          (f a b + if ((a : Int) = t) ∧ ((b : Int) = p) then 1 else 0) :=
      Finset.sum_congr rfl (fun b _ => hpt a b)
    rw [h1, Finset.sum_add_distrib]
    congr 1
    by_cases hat : (a : Int) = t
    · have hcg : ∀ b ∈ Finset.range n,
          (if ((a : Int) = t) ∧ ((b : Int) = p) then (1 : Nat) else 0) =
            (if (b : Int) = p then 1 else 0) := fun b _ => by simp [hat]
      rw [Finset.sum_congr rfl hcg, sum_range_indicator, if_pos hat]
    · have hcg : ∀ b ∈ Finset.range n,
          (if ((a : Int) = t) ∧ ((b : Int) = p) then (1 : Nat) else 0) = 0 :=
        fun b _ => by simp [hat]
      rw [Finset.sum_congr rfl hcg, if_neg hat]
      simp
  rw [Finset.sum_congr rfl (fun a _ => hrow a), Finset.sum_add_distrib,
    sum_range_indicator]
  by_cases h1 : 0 ≤ t ∧ t < (n : Int) <;>
    by_cases h2 : 0 ≤ p ∧ p < (n : Int) <;> simp [h1, h2]

/-- Pointwise characterisation of `foldPairs`: each cell gains one count per
non-ignored pair that targets it. -/
theorem foldPairs_apply (ig : Option Int) :
    ∀ (pairs : List (Int × Int)) (f : Counts) (a b : Int),
      foldPairs f ig pairs a b =
        f a b + pairs.countP
          (fun q => !(some q.1 == ig) && (q.1 == a && q.2 == b)) := by
  intro pairs
  induction pairs with
  | nil => intro f a b; simp [foldPairs]
  | cons q rest ih =>
    intro f a b
    obtain ⟨t, p⟩ := q
    rw [foldPairs, ih, List.countP_cons]
    by_cases hig : some t == ig
    · simp only [hig, if_pos, Bool.not_true, Bool.false_and, if_neg]
      simp
    · have hig2 : (some t == ig) = false := by
        cases h : (some t == ig) with
        | false => rfl
        | true => exact absurd h hig
      simp only [hig2, Bool.not_false, Bool.true_and, if_neg, Bool.false_eq_true,
        not_false_iff]
      by_cases hab : a = t ∧ b = p
      · have hbeq : (t == a && p == b) = true := by
          simp [hab.1.symm, hab.2.symm]
        simp [bump, hab, hbeq]
        omega
      · have hbeq : (t == a && p == b) = false := by
          rcases not_and_or.mp hab with h | h <;> simp [beq_iff_eq] <;> omega
        simp [bump, hab, hbeq]

/-- Folding pairs whose cells stay inside the grid raises the grid total by
the number of non-ignored pairs. -/
theorem gridTotal_foldPairs (n : Nat) (ig : Option Int) :
    ∀ (pairs : List (Int × Int)) (f : Counts),
      (∀ q ∈ pairs, some q.1 = ig ∨
        (0 ≤ q.1 ∧ q.1 < (n : Int) ∧ 0 ≤ q.2 ∧ q.2 < (n : Int))) →
      gridTotal n (foldPairs f ig pairs) =
        gridTotal n f + pairs.countP (fun q => !(some q.1 == ig)) := by
  intro pairs
  induction pairs with
  | nil => intro f _; simp [foldPairs]
  | cons q rest ih =>
    intro f hq
    obtain ⟨t, p⟩ := q
    rw [foldPairs, List.countP_cons]
    have hrest : ∀ q ∈ rest, some q.1 = ig ∨
        (0 ≤ q.1 ∧ q.1 < (n : Int) ∧ 0 ≤ q.2 ∧ q.2 < (n : Int)) :=
      fun q hqr => hq q (List.mem_cons_of_mem _ hqr)
    by_cases hig : some t == ig
    · rw [if_pos hig, ih f hrest]
      simp only [hig, Bool.not_true]
      simp
    · have hig2 : (some t == ig) = false := by
        cases h : (some t == ig) with
        | false => rfl
        | true => exact absurd h hig
      have hne : ¬ some t = ig := by
        intro h
        rw [h] at hig2
        simp at hig2
      have hbounds : 0 ≤ t ∧ t < (n : Int) ∧ 0 ≤ p ∧ p < (n : Int) :=
        (hq (t, p) (List.mem_cons_self _ _)).resolve_left hne
      rw [if_neg (by simp [hig2]), ih (bump f t p) hrest, gridTotal_bump,
        if_pos ⟨⟨hbounds.1, hbounds.2.1⟩, ⟨hbounds.2.2.1, hbounds.2.2.2⟩⟩]
      simp only [hig2, Bool.not_false]
      simp
      omega

/-- Counting pairs of a zip by a predicate on the first component counts the
first list. -/
theorem countP_zip_left (g : Int → Bool) :
    ∀ (ts ps : List Int), ps.length = ts.length →
      (ts.zip ps).countP (fun q => g q.1) = ts.countP g := by
  intro ts
  induction ts with
  | nil => intro ps _; simp
  | cons t ts2 ih =>
    intro ps hlen
    cases ps with
    | nil => simp at hlen
    | cons p ps2 =>
      simp only [List.length_cons, Nat.succ.injEq] at hlen
      simp only [List.zip_cons_cons, List.countP_cons, ih ps2 hlen]

/-- Success of `update` forces equal lengths, valid labels, and determines
the resulting state. -/
theorem update_eq_ok (s : ConfusionMatrixState) (ps ts : List Int)
    (ig : Option Int) (s2 : ConfusionMatrixState)
    (h : update s ps ts ig = .ok s2) :
    ps.length = ts.length ∧
    (∀ x ∈ ps, labelValid s.num_classes ig x = true) ∧
    (∀ x ∈ ts, labelValid s.num_classes ig x = true) ∧
    s2 = ⟨s.num_classes, foldPairs s.counts ig (ts.zip ps)⟩ := by
  by_cases hlen : ps.length ≠ ts.length
  · simp [update, hlen] at h
  · push_neg at hlen
    by_cases hval : (ps.all (labelValid s.num_classes ig) &&
        ts.all (labelValid s.num_classes ig)) = true
    · have hps := (List.all_eq_true.mp (Bool.and_eq_true_iff.mp hval).1)
      have hts := (List.all_eq_true.mp (Bool.and_eq_true_iff.mp hval).2)
      refine ⟨hlen, hps, hts, ?_⟩
      rw [update, if_neg (by omega), if_pos hval] at h
      exact (Except.ok.injEq _ _ |>.mp h).symm
    · rw [update, if_neg (by omega), if_neg hval] at h
      simp at h

/-- A `filterMap` by an if-some function is a filter followed by a map. -/
theorem filterMap_ite {α β : Type} (P : α → Prop) [DecidablePred P] (g : α → β) :
    ∀ l : List α,
      (l.filterMap (fun a => if P a then some (g a) else none)) =
        (l.filter (fun a => decide (P a))).map g := by
  intro l
  induction l with
  | nil => rfl
  | cons a l2 ih =>
    by_cases h : P a
    · simp only [List.filterMap_cons, List.filter_cons, h, if_pos,
        List.map_cons, ih]
      simp [h]
    · simp only [List.filterMap_cons, List.filter_cons, h, if_neg,
        ih]
      simp [h]

/-- The per-class list produced by `compute`. -/
theorem compute_per_class_eq (s : ConfusionMatrixState) :
    (compute s).per_class_iou = (List.range s.num_classes).map (iouAt s) := rfl

/-- The defined entries of the per-class list are exactly `definedVals`. -/
theorem filterMap_compute_eq_definedVals (s : ConfusionMatrixState) :
    ((List.range s.num_classes).map (iouAt s)).filterMap id = definedVals s := by
  rw [List.filterMap_map]
  have h1 : (id ∘ iouAt s) = (fun c =>
      if 0 < denom s c then
        some ((truePos s c : ℚ) / (denom s c : ℚ)) else none) := rfl
  rw [h1, filterMap_ite (fun c => 0 < denom s c)
    (fun c => (truePos s c : ℚ) / (denom s c : ℚ))]
  rfl

/-- The mean produced by `compute`, in terms of `definedVals`. -/
theorem compute_miou_eq (s : ConfusionMatrixState) :
    (compute s).miou =
      if (definedVals s).isEmpty then none
      else some ((definedVals s).sum / ((definedVals s).length : ℚ)) := by
  show (if (((List.range s.num_classes).map (iouAt s)).filterMap id).isEmpty
      then none
      else some ((((List.range s.num_classes).map (iouAt s)).filterMap id).sum /
        ((((List.range s.num_classes).map (iouAt s)).filterMap id).length : ℚ))) = _
  rw [filterMap_compute_eq_definedVals]

/-- Counting zipped pairs by a condition that skips ignored targets is
invariant under changing predictions at ignored positions. -/
theorem countP_zip_agree (ig : Option Int) (r : Int × Int → Bool) :
    ∀ (ts ps ps2 : List Int),
      ps.length = ts.length → ps2.length = ts.length →
      (∀ (i : Nat) (t : Int), ts[i]? = some t → some t ≠ ig →
        ps2[i]? = ps[i]?) →
      (ts.zip ps2).countP (fun q => !(some q.1 == ig) && r q) =
        (ts.zip ps).countP (fun q => !(some q.1 == ig) && r q) := by
  intro ts
  induction ts with
  | nil =>
    intro ps ps2 _ _ _
    simp
  | cons t ts2 ih =>
    intro ps ps2 h1 h2 hagree
    cases ps with
    | nil => simp at h1
    | cons p psr =>
      cases ps2 with
      | nil => simp at h2
      | cons p2 ps2r =>
        simp only [List.length_cons, Nat.succ.injEq] at h1 h2
        have htail : ∀ (i : Nat) (t2 : Int), ts2[i]? = some t2 →
            some t2 ≠ ig → ps2r[i]? = psr[i]? := by
          intro i t2 hi hne
          have := hagree (i + 1) t2 (by simpa using hi) hne
          simpa using this
        by_cases hig : some t = ig
        · have hcond : (!(some t == ig) && r (t, p)) = false := by simp [hig]
          have hcond2 : (!(some t == ig) && r (t, p2)) = false := by simp [hig]
          simp only [List.zip_cons_cons, List.countP_cons, hcond, hcond2]
          simp [ih psr ps2r h1 h2 htail]
        · have hp : p2 = p := by
            have := hagree 0 t (by simp) hig
            simpa using this
          subst hp
          simp only [List.zip_cons_cons, List.countP_cons]
          rw [ih psr ps2r h1 h2 htail]

/-! ### The claims -/

/-- C1: for every `ConfusionMatrixState`, the mean returned by `compute` is
the unweighted arithmetic mean of exactly the defined per-class IoU values
(classes with positive `denom`); undefined classes are excluded rather than
counted as zero, and the mean is the undefined marker precisely when no
class has a defined value. -/
theorem compute_mean_policy (s : ConfusionMatrixState) :
    ((compute s).miou = none ↔ ∀ c < s.num_classes, denom s c = 0) ∧
    (∀ c, c < s.num_classes → 0 < denom s c →
      (compute s).miou =
        some ((definedVals s).sum / ((definedVals s).length : ℚ))) := by
  have hm := compute_miou_eq s
  constructor
  · rw [hm]
    constructor
    · intro h c hc
      by_cases he : (definedVals s).isEmpty
      · have hidx : definedIdx s = [] :=
          List.map_eq_nil_iff.mp (List.isEmpty_iff.mp he)
        have hni := List.filter_eq_nil_iff.mp hidx c (List.mem_range.mpr hc)
        simp only [decide_eq_true_eq] at hni
        omega
      · rw [if_neg he] at h
        exact absurd h (by simp)
    · intro h
      have he : (definedVals s).isEmpty := by
        rw [List.isEmpty_iff]
        apply List.map_eq_nil_iff.mpr
        apply List.filter_eq_nil_iff.mpr
        intro c hc
        have := h c (List.mem_range.mp hc)
        simp [this]
      rw [if_pos he]
  · intro c hc hd
    have hmem : c ∈ definedIdx s :=
      List.mem_filter.mpr ⟨List.mem_range.mpr hc, by simp [hd]⟩
    have hvmem : ((truePos s c : ℚ) / (denom s c : ℚ)) ∈ definedVals s :=
      List.mem_map_of_mem _ hmem
    have hne : ¬ (definedVals s).isEmpty = true := by
      intro he
      rw [List.isEmpty_iff.mp he] at hvmem
      exact absurd hvmem (List.not_mem_nil _)
    rw [hm, if_neg hne]

/-- C1 witness: on the concrete state `cmA` (class 0 has positive union) the
mean equals the arithmetic mean of the defined per-class values. -/
theorem compute_mean_policy_witness :
    (compute cmA).miou =
      some ((definedVals cmA).sum / ((definedVals cmA).length : ℚ)) :=
  (compute_mean_policy cmA).2 0 (by decide) (by decide)

/-- C3: for every state and class `c < num_classes`, `compute` reports
`counts[c][c] / (counts[c][c] + (colSum − TP) + (rowSum − TP))` when the
denominator is positive, and the undefined marker (not an error, not zero)
when it is zero. -/
theorem compute_per_class_formula (s : ConfusionMatrixState) (c : Nat)
    (hc : c < s.num_classes) :
    ((compute s).per_class_iou[c]? = some (iouAt s c)) ∧
    (0 < denom s c → iouAt s c =
      some ((truePos s c : ℚ) /
        ((truePos s c : ℚ) + ((colSum s c : ℚ) - (truePos s c : ℚ)) +
          ((rowSum s c : ℚ) - (truePos s c : ℚ))))) ∧
    (denom s c = 0 → iouAt s c = none) := by
  refine ⟨?_, ?_, ?_⟩
  · rw [compute_per_class_eq, List.getElem?_map, List.getElem?_range hc]
    rfl
  · intro hd
    have htc : truePos s c ≤ colSum s c :=
      Finset.single_le_sum (f := fun t : Nat => s.counts t c)
        (fun i _ => Nat.zero_le _) (Finset.mem_range.mpr hc)
    have htr : truePos s c ≤ rowSum s c :=
      Finset.single_le_sum (f := fun p : Nat => s.counts c p)
        (fun i _ => Nat.zero_le _) (Finset.mem_range.mpr hc)
    have hcast : ((denom s c : ℕ) : ℚ) =
        (truePos s c : ℚ) + ((colSum s c : ℚ) - (truePos s c : ℚ)) +
          ((rowSum s c : ℚ) - (truePos s c : ℚ)) := by
      unfold denom
      push_cast [htc, htr]
      ring
    rw [iouAt, if_pos hd, hcast]
  · intro h0
    rw [iouAt, h0]
    simp

/-- C3 witness: on the concrete state `cmA`, class 0 has denominator 4 and
IoU 3/4, as the formula states. -/
theorem compute_per_class_formula_witness :
    ((compute cmA).per_class_iou[0]? = some (iouAt cmA 0)) ∧
    (iouAt cmA 0 =
      some ((truePos cmA 0 : ℚ) /
        ((truePos cmA 0 : ℚ) + ((colSum cmA 0 : ℚ) - (truePos cmA 0 : ℚ)) +
          ((rowSum cmA 0 : ℚ) - (truePos cmA 0 : ℚ))))) :=
  ⟨(compute_per_class_formula cmA 0 (by decide)).1,
   (compute_per_class_formula cmA 0 (by decide)).2.1 (by decide)⟩

/-- C5: `update` is atomic on failure — unequal lengths fail with
`LengthMismatch`, a non-ignored label outside `[0, num_classes)` fails with
`OutOfRangeLabel`, and in both cases the matrix visible after the call is
the matrix from before the call. -/
theorem update_rejects_without_mutation (s : ConfusionMatrixState)
    (predictions targets : List Int) (ig : Option Int) :
    (predictions.length ≠ targets.length →
      update s predictions targets ig = .error .lengthMismatch ∧
      applyUpdate s predictions targets ig = s) ∧
    (predictions.length = targets.length →
      (∃ x, (x ∈ predictions ∨ x ∈ targets) ∧
        labelValid s.num_classes ig x = false) →
      update s predictions targets ig = .error .outOfRangeLabel ∧
      applyUpdate s predictions targets ig = s) := by
  constructor
  · intro hne
    have h1 : update s predictions targets ig = .error .lengthMismatch := by
      rw [update, if_pos hne]
    exact ⟨h1, by rw [applyUpdate, h1]⟩
  · rintro hlen ⟨x, hx, hbad⟩
    have hcond : (predictions.all (labelValid s.num_classes ig) &&
        targets.all (labelValid s.num_classes ig)) = false := by
      cases hb : (predictions.all (labelValid s.num_classes ig) &&
          targets.all (labelValid s.num_classes ig)) with
      | false => rfl
      | true =>
        exfalso
        rcases hx with hx | hx
        · have := List.all_eq_true.mp (Bool.and_eq_true_iff.mp hb).1 x hx
          rw [this] at hbad
          exact absurd hbad (by simp)
        · have := List.all_eq_true.mp (Bool.and_eq_true_iff.mp hb).2 x hx
          rw [this] at hbad
          exact absurd hbad (by simp)
    have h1 : update s predictions targets ig = .error .outOfRangeLabel := by
      rw [update, if_neg (by omega), hcond]
      rfl
    exact ⟨h1, by rw [applyUpdate, h1]⟩

/-- C5 witness: a length-mismatched call and an out-of-range call on `cmA`,
both rejected with the stated error and leaving the matrix untouched. -/
theorem update_rejects_without_mutation_witness :
    (update cmA [0] [] none = .error .lengthMismatch ∧
      applyUpdate cmA [0] [] none = cmA) ∧
    (update cmA [2] [0] none = .error .outOfRangeLabel ∧
      applyUpdate cmA [2] [0] none = cmA) :=
  ⟨(update_rejects_without_mutation cmA [0] [] none).1 (by decide),
   (update_rejects_without_mutation cmA [2] [0] none).2 rfl
     ⟨2, Or.inl (by decide), by decide⟩⟩

/-- C6: for states of equal `num_classes`, `merge` is commutative, and
associative over sequential reduction, so the reduced result is independent
of reduction order. -/
theorem merge_comm_assoc :
    (∀ a b : ConfusionMatrixState, a.num_classes = b.num_classes →
      merge a b = merge b a) ∧
    (∀ a b c : ConfusionMatrixState, a.num_classes = b.num_classes →
      b.num_classes = c.num_classes →
      (merge a b).bind (fun ab => merge ab c) =
        (merge b c).bind (fun bc => merge a bc)) := by
  constructor
  · intro a b h
    have hf : (fun t p => a.counts t p + b.counts t p) =
        (fun t p => b.counts t p + a.counts t p) := by
      funext t p
      exact Nat.add_comm _ _
    rw [merge, merge, if_pos h, if_pos h.symm, hf, h]
  · intro a b c hab hbc
    have hac : a.num_classes = c.num_classes := hab.trans hbc
    have h1 : merge a b = .ok ⟨a.num_classes,
        fun t p => a.counts t p + b.counts t p⟩ := by
      rw [merge, if_pos hab]
    have h2 : merge b c = .ok ⟨b.num_classes,
        fun t p => b.counts t p + c.counts t p⟩ := by
      rw [merge, if_pos hbc]
    rw [h1, h2]
    show merge (⟨a.num_classes, fun t p => a.counts t p + b.counts t p⟩ :
        ConfusionMatrixState) c =
      merge a (⟨b.num_classes, fun t p => b.counts t p + c.counts t p⟩ :
        ConfusionMatrixState)
    rw [merge, merge]
    simp only [if_pos hac, if_pos hab]
    have hf : (fun t p => (a.counts t p + b.counts t p) + c.counts t p) =
        (fun t p => a.counts t p + (b.counts t p + c.counts t p)) := by
      funext t p
      exact Nat.add_assoc _ _ _
    rw [hf]

/-- C6 witness: commutativity and associativity on the concrete states
`cmA`, `cmB`, `cmC`. -/
theorem merge_comm_assoc_witness :
    merge cmA cmB = merge cmB cmA ∧
    (merge cmA cmB).bind (fun ab => merge ab cmC) =
      (merge cmB cmC).bind (fun bc => merge cmA bc) :=
  ⟨merge_comm_assoc.1 cmA cmB rfl, merge_comm_assoc.2 cmA cmB cmC rfl rfl⟩

/-- C7: on any accumulator whose counts are all zero (freshly constructed or
just reset), `compute` succeeds and returns the all-undefined result: every
per-class entry is the undefined marker and so is the mean. -/
theorem compute_empty_all_undefined (s : ConfusionMatrixState)
    (h : ∀ t p : Int, s.counts t p = 0) :
    (compute s).per_class_iou = List.replicate s.num_classes (none : Option ℚ) ∧
    (compute s).miou = none := by
  have hden : ∀ c, denom s c = 0 := by
    intro c
    simp [denom, truePos, colSum, rowSum, h]
  have hiou : ∀ c ∈ List.range s.num_classes, iouAt s c = (fun _ => none) c := by
    intro c _
    simp [iouAt, hden]
  constructor
  · rw [compute_per_class_eq, List.map_congr_left hiou]
    simp [List.map_const]
  · rw [compute_miou_eq]
    have he : (definedVals s).isEmpty = true := by
      rw [List.isEmpty_iff]
      apply List.map_eq_nil_iff.mpr
      apply List.filter_eq_nil_iff.mpr
      intro c _
      simp [hden c]
    rw [if_pos he]

/-- C7 witness: `compute` after `reset` on the concrete state `cmA` yields
all-undefined per-class entries and an undefined mean. -/
theorem compute_empty_all_undefined_witness :
    (compute (reset cmA)).per_class_iou =
      List.replicate (reset cmA).num_classes (none : Option ℚ) ∧
    (compute (reset cmA)).miou = none :=
  compute_empty_all_undefined (reset cmA) (fun _ _ => rfl)

/-- C8: the train, validation and test phases own three separate
accumulators, all independently constructed with the same `num_classes`;
each step and epoch-end operation touches exactly its own phase's
accumulator and leaves the other two unchanged, and no operation merges
accumulators of different phases. -/
theorem phase_isolation (m : SegModule) (predictions labels : List Int)
    (ig : Option Int) (n : Nat) :
    ((training_step m predictions labels ig).iou_train =
        iouForward m.iou_train predictions labels ig ∧
      (training_step m predictions labels ig).iou_val = m.iou_val ∧
      (training_step m predictions labels ig).iou_test = m.iou_test) ∧
    ((validation_step m predictions labels ig).iou_val =
        iouForward m.iou_val predictions labels ig ∧
      (validation_step m predictions labels ig).iou_train = m.iou_train ∧
      (validation_step m predictions labels ig).iou_test = m.iou_test) ∧
    ((test_step m predictions labels ig).iou_test =
        iouForward m.iou_test predictions labels ig ∧
      (test_step m predictions labels ig).iou_train = m.iou_train ∧
      (test_step m predictions labels ig).iou_val = m.iou_val) ∧
    ((training_epoch_end m).2.iou_train = reset m.iou_train ∧
      (training_epoch_end m).2.iou_val = m.iou_val ∧
      (training_epoch_end m).2.iou_test = m.iou_test) ∧
    ((validation_epoch_end m).2.iou_val = reset m.iou_val ∧
      (validation_epoch_end m).2.iou_train = m.iou_train ∧
      (validation_epoch_end m).2.iou_test = m.iou_test) ∧
    ((test_epoch_end m).2.iou_test = reset m.iou_test ∧
      (test_epoch_end m).2.iou_train = m.iou_train ∧
      (test_epoch_end m).2.iou_val = m.iou_val) ∧
    ((initModule n).iou_train = ⟨n, zeroCounts⟩ ∧
      (initModule n).iou_val = ⟨n, zeroCounts⟩ ∧
      (initModule n).iou_test = ⟨n, zeroCounts⟩) :=
  ⟨⟨rfl, rfl, rfl⟩, ⟨rfl, rfl, rfl⟩, ⟨rfl, rfl, rfl⟩, ⟨rfl, rfl, rfl⟩,
   ⟨rfl, rfl, rfl⟩, ⟨rfl, rfl, rfl⟩, ⟨rfl, rfl, rfl⟩⟩

/-- C9: a dataset config whose `name` is not a key of `valid_options`
(whose only key is `"lapa"`) makes `validate_dataconf` fail with the
`ValueError` listing the valid options; a config named `"lapa"` with all
required fields present yields a `LapaConf`. -/
theorem validate_dataconf_dispatch (cfg : DatasetCfg) :
    (cfg.name ≠ "lapa" →
      validate_dataconf cfg = .error (.valueError (invalidDatasetMsg cfg.name))) ∧
    (cfg.name = "lapa" →
      ∀ d b w h rw2, cfg.data_dir = some d → cfg.batch_size = some b →
        cfg.num_workers = some w → cfg.resize_h = some h →
        cfg.resize_w = some rw2 →
        validate_dataconf cfg = .ok ⟨"lapa", d, b, w, h, rw2⟩) := by
  constructor
  · intro hname
    have hlook : valid_options.lookup cfg.name = none := by
      have : (cfg.name == "lapa") = false := by
        cases hb : (cfg.name == "lapa") with
        | false => rfl
        | true => exact absurd (by simpa using hb) hname
      simp [valid_options, List.lookup, this]
    rw [validate_dataconf, hlook]
  · intro hname d b w h rw2 hd hb hw hh hrw
    have hlook : valid_options.lookup cfg.name = some mkLapaConf := by
      simp [valid_options, List.lookup, hname]
    rw [validate_dataconf, hlook]
    show mkLapaConf cfg = _
    unfold mkLapaConf
    rw [hd, hb, hw, hh, hrw, hname]

/-- C9 witness: the unknown name `"coco"` is rejected with the `ValueError`
message, and the complete `"lapa"` config is accepted. -/
theorem validate_dataconf_dispatch_witness :
    validate_dataconf cfgBad =
      .error (.valueError (invalidDatasetMsg cfgBad.name)) ∧
    validate_dataconf cfgLapa = .ok ⟨"lapa", "/data", 8, 4, 256, 256⟩ :=
  ⟨(validate_dataconf_dispatch cfgBad).1 (by decide),
   (validate_dataconf_dispatch cfgLapa).2 rfl "/data" 8 4 256 256
     rfl rfl rfl rfl rfl⟩

/-- C10: `create_log_dir` creates `logs/<run_id>` and saves the config into
it exactly on rank-zero processes (both rank variables `0` or unset); every
other process gets the path `logs/None` back with no directory created and
no file written. -/
theorem create_log_dir_rank_gate (env : EnvRanks) (root : List String)
    (run_id : String) :
    (is_rank_zero env = true ↔
      env.local_rank.getD 0 = 0 ∧ env.node_rank.getD 0 = 0) ∧
    (is_rank_zero env = true →
      create_log_dir env root run_id =
        ([.mkdirParents (root ++ [LOGS_DIR] ++ [run_id]),
          .saveConfig (root ++ [LOGS_DIR] ++ [run_id] ++ ["train.yaml"])],
         root ++ [LOGS_DIR] ++ [run_id])) ∧
    (is_rank_zero env = false →
      create_log_dir env root run_id = ([], root ++ [LOGS_DIR] ++ ["None"])) := by
  refine ⟨?_, ?_, ?_⟩
  · rw [is_rank_zero]
    by_cases h : env.local_rank.getD 0 = 0 ∧ env.node_rank.getD 0 = 0 <;>
      simp [h]
  · intro h
    rw [create_log_dir, h]
    simp
  · intro h
    rw [create_log_dir, h]
    simp

/-- C10 witness: a rank-zero environment creates and returns
`logs/<run_id>`; a non-rank-zero environment performs no action and gets
`logs/None`. -/
theorem create_log_dir_rank_gate_witness :
    create_log_dir envZero ["proj"] "abc123" =
      ([.mkdirParents ["proj", LOGS_DIR, "abc123"],
        .saveConfig ["proj", LOGS_DIR, "abc123", "train.yaml"]],
       ["proj", LOGS_DIR, "abc123"]) ∧
    create_log_dir envOne ["proj"] "abc123" = ([], ["proj", LOGS_DIR, "None"]) :=
  ⟨(create_log_dir_rank_gate envZero ["proj"] "abc123").2.1 rfl,
   (create_log_dir_rank_gate envOne ["proj"] "abc123").2.2 rfl⟩

/-- C2: a valid `update` call succeeds and, for every cell `(a, b)`, adds
exactly the number of indices whose (non-ignored) target is `a` and whose
prediction is `b`; ignored indices change no cell, regardless of their
prediction — witnessed by the final conjunct, which lets the predictions at
ignored positions vary arbitrarily without changing the result. -/
theorem update_effect_pointwise (s : ConfusionMatrixState)
    (predictions targets : List Int) (ig : Option Int)
    (hlen : predictions.length = targets.length)
    (hp : ∀ x ∈ predictions, labelValid s.num_classes ig x = true)
    (ht : ∀ x ∈ targets, labelValid s.num_classes ig x = true) :
    ∃ s2, update s predictions targets ig = .ok s2 ∧
      s2.num_classes = s.num_classes ∧
      (∀ a b : Int, s2.counts a b = s.counts a b +
        (targets.zip predictions).countP
          (fun q => !(some q.1 == ig) && (q.1 == a && q.2 == b))) ∧
      (∀ predictions2 : List Int, predictions2.length = targets.length →
        (∀ x ∈ predictions2, labelValid s.num_classes ig x = true) →
        (∀ (i : Nat) (t : Int), targets[i]? = some t → some t ≠ ig →
          predictions2[i]? = predictions[i]?) →
        update s predictions2 targets ig = update s predictions targets ig) := by
  have hcond : (predictions.all (labelValid s.num_classes ig) &&
      targets.all (labelValid s.num_classes ig)) = true := by
    rw [Bool.and_eq_true_iff]
    exact ⟨List.all_eq_true.mpr hp, List.all_eq_true.mpr ht⟩
  have hup : update s predictions targets ig =
      .ok ⟨s.num_classes, foldPairs s.counts ig (targets.zip predictions)⟩ := by
    rw [update, if_neg (by omega), if_pos hcond]
  refine ⟨_, hup, rfl, ?_, ?_⟩
  · intro a b
    exact foldPairs_apply ig (targets.zip predictions) s.counts a b
  · intro ps2 hlen2 hp2 hagree
    have hcond2 : (ps2.all (labelValid s.num_classes ig) &&
        targets.all (labelValid s.num_classes ig)) = true := by
      rw [Bool.and_eq_true_iff]
      exact ⟨List.all_eq_true.mpr hp2, List.all_eq_true.mpr ht⟩
    have hup2 : update s ps2 targets ig =
        .ok ⟨s.num_classes, foldPairs s.counts ig (targets.zip ps2)⟩ := by
      rw [update, if_neg (by omega), if_pos hcond2]
    rw [hup, hup2]
    have hfp : foldPairs s.counts ig (targets.zip ps2) =
        foldPairs s.counts ig (targets.zip predictions) := by
      funext a b
      rw [foldPairs_apply, foldPairs_apply]
      congr 1
      exact countP_zip_agree ig (fun q => q.1 == a && q.2 == b) targets
        predictions ps2 hlen hlen2 hagree
    rw [hfp]

/-- C2 witness: on `cmB` with `ignore_index = 255`, the batch with targets
`[0, 255]` and predictions `[1, 0]` increments exactly the cell `(0, 1)` by
one; the pixel with ignored target contributes nothing. -/
theorem update_effect_pointwise_witness :
    (applyUpdate cmB [1, 0] [0, 255] (some 255)).counts 0 1 =
      cmB.counts 0 1 + 1 := by
  obtain ⟨s2, hok, -, hpt, -⟩ :=
    update_effect_pointwise cmB [1, 0] [0, 255] (some 255) (by decide)
      (by decide) (by decide)
  have h2 : applyUpdate cmB [1, 0] [0, 255] (some 255) = s2 := by
    rw [applyUpdate, hok]
  rw [h2, hpt 0 1]
  decide

/-- A successful `update` under the grid-safety proviso adds exactly the
number of non-ignored targets to the grid sum. -/
theorem update_ok_totalCount (s : ConfusionMatrixState) (ps ts : List Int)
    (ig : Option Int) (s2 : ConfusionMatrixState)
    (h : update s ps ts ig = .ok s2)
    (hsafe : gridSafe s.num_classes ig ps ts) :
    s2.num_classes = s.num_classes ∧
    totalCount s2 = totalCount s + nonIgnoredCount ts ig := by
  obtain ⟨hlen, hp, ht, hs2⟩ := update_eq_ok s ps ts ig s2 h
  subst hs2
  refine ⟨rfl, ?_⟩
  show gridTotal s.num_classes (foldPairs s.counts ig (ts.zip ps)) = _
  have hsafeall : ∀ q ∈ ts.zip ps, some q.1 = ig ∨
      (0 ≤ q.1 ∧ q.1 < (s.num_classes : Int) ∧ 0 ≤ q.2 ∧
        q.2 < (s.num_classes : Int)) := by
    intro q hq
    obtain ⟨t, p⟩ := q
    by_cases hig : some t = ig
    · exact Or.inl hig
    · right
      have hqt : t ∈ ts := (List.of_mem_zip hq).1
      have hv := ht t hqt
      simp only [labelValid, Bool.or_eq_true, beq_iff_eq, Bool.and_eq_true,
        decide_eq_true_eq] at hv
      have hbt : 0 ≤ t ∧ t < (s.num_classes : Int) := hv.resolve_left hig
      have hbp : 0 ≤ p ∧ p < (s.num_classes : Int) :=
        (hsafe (t, p) hq).resolve_left hig
      exact ⟨hbt.1, hbt.2, hbp.1, hbp.2⟩
  rw [gridTotal_foldPairs s.num_classes ig (ts.zip ps) s.counts hsafeall]
  congr 1
  exact countP_zip_left (fun t => !(some t == ig)) ts ps hlen

/-- Running a batch sequence accumulates the per-batch non-ignored counts
into the grid total. -/
theorem runUpdates_totalCount (ig : Option Int) :
    ∀ (batches : List (List Int × List Int)) (s s2 : ConfusionMatrixState),
      (∀ b ∈ batches, gridSafe s.num_classes ig b.1 b.2) →
      runUpdates s batches ig = .ok s2 →
      s2.num_classes = s.num_classes ∧
      totalCount s2 = totalCount s + sumNonIgnored batches ig := by
  intro batches
  induction batches with
  | nil =>
    intro s s2 _ h
    simp only [runUpdates, Except.ok.injEq] at h
    subst h
    simp [sumNonIgnored]
  | cons b rest ih =>
    intro s s2 hsafe hrun
    obtain ⟨ps, ts⟩ := b
    simp only [runUpdates] at hrun
    cases hu : update s ps ts ig with
    | error e =>
      rw [hu] at hrun
      simp at hrun
    | ok smid =>
      rw [hu] at hrun
      obtain ⟨hn1, ht1⟩ := update_ok_totalCount s ps ts ig smid hu
        (hsafe (ps, ts) (List.mem_cons_self _ _))
      obtain ⟨hn2, ht2⟩ := ih smid s2
        (fun b2 hb2 => hn1 ▸ hsafe b2 (List.mem_cons_of_mem _ hb2)) hrun
      refine ⟨hn2.trans hn1, ?_⟩
      rw [ht2, ht1]
      simp only [sumNonIgnored, List.map_cons, List.sum_cons]
      omega

/-- C4 counterexample: with a single class and `ignore_index = 5`, the call
`update(predictions=[5], targets=[0])` passes validation (the prediction
equals the sentinel and is exempt from the range check) and succeeds, yet
the grid sum stays `0` while one target was non-ignored — so the grid sum
does not equal the non-ignored pixel count for this successful call. -/
theorem grid_sum_counterexample :
    (update (reset cmOne) [5] [0] (some 5)).isOk = true ∧
    totalCount (applyUpdate (reset cmOne) [5] [0] (some 5)) = 0 ∧
    nonIgnoredCount [0] (some 5) = 1 ∧
    sumNonIgnored [([5], [0])] (some 5) = 1 := by
  refine ⟨?_, ?_, ?_, ?_⟩ <;> decide

/-- C4 (amended): for every sequence of successful `update` calls applied
after the last reset, if additionally every prediction paired with a
non-ignored target lies in `[0, num_classes)`, then the sum of all
`num_classes × num_classes` entries equals the total number of indices
across those calls whose target differed from `ignore_index`. -/
theorem grid_sum_invariant_amended (s0 : ConfusionMatrixState)
    (batches : List (List Int × List Int)) (ig : Option Int)
    (s2 : ConfusionMatrixState)
    (hsafe : ∀ b ∈ batches, gridSafe s0.num_classes ig b.1 b.2)
    (hrun : runUpdates (reset s0) batches ig = .ok s2) :
    totalCount s2 = sumNonIgnored batches ig := by
  have h0 : totalCount (reset s0) = 0 := by
    show gridTotal s0.num_classes zeroCounts = 0
    unfold gridTotal zeroCounts
    simp
  obtain ⟨-, ht⟩ := runUpdates_totalCount ig batches (reset s0) s2 hsafe hrun
  rw [ht, h0, Nat.zero_add]

/-- C4 amended-claim witness: two grid-safe batches on a two-class state
accumulate a grid sum of three, the number of non-ignored targets. -/
theorem grid_sum_invariant_amended_witness :
    totalCount (applyUpdate (applyUpdate (reset cmA) [1, 0] [0, 255] (some 255))
      [0, 1] [1, 1] (some 255)) = 3 := by
  have hrun : runUpdates (reset cmA) [([1, 0], [0, 255]), ([0, 1], [1, 1])]
      (some 255) =
      .ok (applyUpdate (applyUpdate (reset cmA) [1, 0] [0, 255] (some 255))
        [0, 1] [1, 1] (some 255)) := rfl
  rw [grid_sum_invariant_amended cmA [([1, 0], [0, 255]), ([0, 1], [1, 1])]
    (some 255) _ (by decide) hrun]
  decide

end SegLapa
